import Mathlib

/-!
Verification of the `TopicContentLoaderService` from
`javascripts/discourse/services/topic-content-loader.js`.

The development shallowly embeds the two components of the service:

* the pure image extractor `extractImagesFromHtml`, where a markup blob is
  modelled by the ordered list of its `<img>` elements (each carrying the
  `alt`, `src` and `data-src` attributes) together with the page origin
  (`window.location.origin`), and
* the stateful throttled cache-loader, modelled as a labelled transition
  system over `LoaderState` whose events are caller invocations of
  `loadTopicImages` and completions of in-flight fetches with an
  environment-chosen outcome.

Timestamps (`Date.now()`) are natural numbers supplied by the environment.
-/

namespace TopicThumbnails

/-- An `<img>` element of the markup, carrying the three attributes the
service reads: `alt`, `src` and `data-src`.  `none` models an absent
attribute (JS `getAttribute` returning `null`). -/
structure Img where
  alt : Option String
  src : Option String
  dataSrc : Option String
deriving DecidableEq, Repr

/-- Substring containment, the model of JS `String.prototype.includes`. -/
def strContains (hay needle : String) : Bool :=
  hay.data.tails.any (fun t => needle.data.isPrefixOf t)

/-- JS `a || b` on two attribute reads (`null` and `""` are falsy), returning
the resulting string, `""` when both are falsy. -/
def jsOr (a b : Option String) : String :=
  match a with
  | some s => if s = "" then b.getD "" else s
  | none => b.getD ""

/-- The effective source of an image element:
`img.getAttribute("src") || img.getAttribute("data-src")`, with a subsequent
`if (src)` truthiness test; `none` when the combined value is falsy. -/
def attrSrc (i : Img) : Option String :=
  let s := jsOr i.src i.dataSrc
  if s = "" then none else some s

/-- Model of JS `String.prototype.startsWith`. -/
def strStartsWith (s p : String) : Bool :=
  p.data.isPrefixOf s.data

/-- URL resolution: a source beginning with `/` is prefixed with the page
origin, everything else passes through unchanged. -/
def resolveUrl (origin src : String) : String :=
  if strStartsWith src "/" then origin ++ src else src

/-- The exclusion filter: a URL is excluded when it contains an emoji path,
a generic `/images/` path or an avatar marker.  The source includes a URL
iff this is `false`. -/
def excludedUrl (url : String) : Bool :=
  strContains url "/images/emoji/" || strContains url "/images/" ||
    strContains url "avatar" || strContains url "user_avatar"

/-- The per-element body shared by both loops of `extractImagesFromHtml`:
read the source attribute, resolve it, and keep it when it passes the
exclusion filter. -/
def eligibleUrl (origin : String) (i : Img) : Option String :=
  match attrSrc i with
  | some src =>
    let url := resolveUrl origin src
    if excludedUrl url then none else some url
  | none => none

/-- The first loop of `extractImagesFromHtml`: scan all images in order and
return the resolved URL of the first one whose `alt` contains the marker
`"封面图"` and whose URL is present and not excluded. -/
def coverScan (origin : String) : List Img → Option String
  | [] => none
  | i :: rest =>
    if strContains (i.alt.getD "") "封面图" then
      match attrSrc i with
      | some src =>
        let url := resolveUrl origin src
        if excludedUrl url then coverScan origin rest else some url
      | none => coverScan origin rest
    else coverScan origin rest

/-- The second loop of `extractImagesFromHtml`:
`for (let i = 0; i < Math.min(images.length, maxImages); i++)`, pushing the
eligible URLs of the first `maxImages` elements.  Every examined element
consumes one unit of the bound, eligible or not. -/
def collectImages (origin : String) : List Img → Nat → List String
  | _, 0 => []
  | [], _ + 1 => []
  | i :: rest, n + 1 =>
    match eligibleUrl origin i with
    | some url => url :: collectImages origin rest n
    | none => collectImages origin rest n

/-- Model of `extractImagesFromHtml(html, maxImages)`: the cover-image scan
short-circuits with a single-element result; otherwise the general loop
collects from the first `maxImages` elements.  Absent/empty markup is the
empty image list. -/
def extractImagesFromHtml (origin : String) (imgs : List Img) (maxImages : Nat) : List String :=
  match coverScan origin imgs with
  | some url => [url]
  | none => collectImages origin imgs maxImages

/-- The cover-image predicate of a single element, packaged as a partial
match function: `some url` iff the `alt` contains `"封面图"` and the element
has an eligible URL. -/
def coverMatch (origin : String) (i : Img) : Option String :=
  if strContains (i.alt.getD "") "封面图" then eligibleUrl origin i else none

theorem coverScan_cons (origin : String) (i : Img) (l : List Img) :
    coverScan origin (i :: l) =
      match coverMatch origin i with
      | some url => some url
      | none => coverScan origin l := by
  simp only [coverScan, coverMatch, eligibleUrl]
  split
  · cases h : attrSrc i with
    | none => simp
    | some src => simp only []; split <;> simp
  · rfl

theorem coverScan_eq_findSome (origin : String) (l : List Img) :
    coverScan origin l = l.findSome? (coverMatch origin) := by
  induction l with
  | nil => rfl
  | cons i rest ih =>
    rw [coverScan_cons, List.findSome?_cons]
    cases coverMatch origin i <;> simp [ih]

theorem collectImages_eq_take_filterMap (origin : String) (l : List Img) (n : Nat) :
    collectImages origin l n = (l.take n).filterMap (eligibleUrl origin) := by
  induction l generalizing n with
  | nil => cases n <;> rfl
  | cons i rest ih =>
    cases n with
    | zero => rfl
    | succ m =>
      simp only [collectImages, List.take_succ_cons, List.filterMap_cons]
      cases eligibleUrl origin i <;> simp [ih]

theorem take_filterMap_of_total (f : Img → Option String) (l : List Img) (n : Nat)
    (h : ∀ i ∈ l, (f i).isSome) :
    (l.take n).filterMap f = (l.filterMap f).take n := by
  induction l generalizing n with
  | nil => simp
  | cons i rest ih =>
    cases n with
    | zero => simp
    | succ m =>
      obtain ⟨a, ha⟩ := Option.isSome_iff_exists.mp (h i (List.mem_cons_self i rest))
      simp only [List.take_succ_cons, List.filterMap_cons, ha, List.take_succ_cons]
      rw [ih m (fun j hj => h j (List.mem_cons_of_mem i hj))]

/-- A cache entry: the extracted image URLs together with the `Date.now()`
timestamp at which they were stored. -/
structure CacheEntry where
  images : List String
  timestamp : Nat
deriving DecidableEq, Repr

/-- A queued request: the topic id, plus the position `tag` of the enqueue
(standing for the `resolve`/`reject` pair that identifies the caller's
promise). -/
structure QueuedReq where
  topicId : Nat
  tag : Nat
deriving DecidableEq, Repr

/-- The mutable fields of a `TopicContentLoaderService` instance.  The
source's `activeRequests` counter is refined to the list `active` of
in-flight requests (its length is the counter); `nextTag` numbers the
enqueues; the `Map` cache is an association list with at most one entry per
key. -/
structure LoaderState where
  requestQueue : List QueuedReq
  active : List QueuedReq
  maxConcurrent : Nat
  requestDelay : Nat
  imageCache : List (Nat × CacheEntry)
  nextTag : Nat
deriving DecidableEq, Repr

/-- The source's `activeRequests` counter. -/
def activeRequests (st : LoaderState) : Nat :=
  st.active.length

/-- The constant `cacheExpiry = 5 * 60 * 1000` milliseconds. -/
def cacheExpiry : Nat := 5 * 60 * 1000

/-- The field initializers of the service class:
`maxConcurrent = 1`, `requestDelay = 300`, empty queue and cache. -/
def initState : LoaderState :=
  { requestQueue := []
    active := []
    maxConcurrent := 1
    requestDelay := 300
    imageCache := []
    nextTag := 0 }

/-- Model of `Map.set`: replace the entry for the key in place, or append a fresh
one. -/
def cacheSet : List (Nat × CacheEntry) → Nat → CacheEntry → List (Nat × CacheEntry)
  | [], id, e => [(id, e)]
  | (k, v) :: rest, id, e =>
    if k = id then (id, e) :: rest else (k, v) :: cacheSet rest id e

/-- Model of `Map.delete`. -/
def cacheDelete (c : List (Nat × CacheEntry)) (id : Nat) : List (Nat × CacheEntry) :=
  c.filter (fun p => p.1 ≠ id)

/-- Model of `_cleanExpiredCache`: delete every entry whose age `now - storedAt` is
`≥ cacheExpiry`. -/
def cleanExpiredCache (c : List (Nat × CacheEntry)) (now : Nat) : List (Nat × CacheEntry) :=
  c.filter (fun p => now - p.2.timestamp < cacheExpiry)

/-- Model of `_isCacheValid` on a present entry: its age is `< cacheExpiry`. -/
def isCacheValid (e : CacheEntry) (now : Nat) : Bool :=
  now - e.timestamp < cacheExpiry

/-- A post of the fetched topic detail; `cooked` is its markup, modelled by
the list of image elements, `none` when absent/empty. -/
structure Post where
  cooked : Option (List Img)
deriving DecidableEq, Repr

/-- The transport response as the service reads it: the `ok` flag, the
HTTP `status`, and the parsed `result.post_stream.posts` collection
(`none` when `post_stream` or `posts` is absent). -/
structure FetchResponse where
  ok : Bool
  status : Nat
  posts : Option (List Post)
deriving DecidableEq, Repr

/-- The outcome of one fetch attempt, chosen by the environment: a settled
HTTP response, or a thrown error (network failure / JSON parse failure). -/
inductive FetchResult where
  | response (resp : FetchResponse)
  | thrown
deriving DecidableEq, Repr

/-- The errors thrown inside `_loadTopicImagesInternal`'s `try` block. -/
inductive LoadError where
  | rateLimit
  | httpError (status : Nat)
  | thrownOther
deriving DecidableEq, Repr

/-- The image extraction performed on a successful response: take the first
post's `cooked` markup, if any, and extract at most 3 images from it. -/
def imagesFromPosts (origin : String) (posts : Option (List Post)) : List String :=
  match posts with
  | some (p :: _) =>
    match p.cooked with
    | some imgs => extractImagesFromHtml origin imgs 3
    | none => []
  | _ => []

/-- The `try` block of `_loadTopicImagesInternal`: on a non-`ok` response
with status 429 tighten the throttle state and throw a rate-limit error; on
any other non-`ok` response throw an HTTP error; on success extract the
images, store them in the cache stamped `now`, and return them.  A thrown
transport/parse failure surfaces as `LoadError.thrownOther` with the state
untouched. -/
def internalTry (origin : String) (st : LoaderState) (topicId : Nat)
    (outcome : FetchResult) (now : Nat) :
    LoaderState × Except LoadError (List String) :=
  match outcome with
  | .thrown => (st, .error .thrownOther)
  | .response resp =>
    if resp.ok then
      let images := imagesFromPosts origin resp.posts
      ({ st with imageCache := cacheSet st.imageCache topicId ⟨images, now⟩ }, .ok images)
    else if resp.status = 429 then
      ({ st with
          requestDelay := min (st.requestDelay * 2) 5000
          maxConcurrent := 1 }, .error .rateLimit)
    else (st, .error (.httpError resp.status))

/-- Model of `_loadTopicImagesInternal`: the `try` block wrapped in the
`catch (error) { console.error(...); return []; }` handler, which absorbs
every thrown error into an empty result. -/
def loadTopicImagesInternal (origin : String) (st : LoaderState) (topicId : Nat)
    (outcome : FetchResult) (now : Nat) : LoaderState × List String :=
  match internalTry origin st topicId outcome now with
  | (st', .ok images) => (st', images)
  | (st', .error _) => (st', [])

/-- How a queued request's promise is settled. -/
inductive Settlement where
  | resolved (images : List String)
  | rejected (e : LoadError)
deriving DecidableEq, Repr

/-- The observable actions of the loader. -/
inductive Obs where
  | cacheHit (topicId : Nat) (images : List String)
  | enqueued (tag : Nat)
  | dispatched (tag : Nat)
  | settled (tag : Nat) (s : Settlement)
deriving DecidableEq, Repr

/-- The synchronous head of `_processQueue`: return if the queue is empty
or `activeRequests >= maxConcurrent`, otherwise shift the head request and
increment `activeRequests` (the request becomes in-flight). -/
def processQueue (st : LoaderState) : LoaderState × List Obs :=
  match st.requestQueue with
  | [] => (st, [])
  | r :: rest =>
    if st.active.length < st.maxConcurrent then
      ({ st with requestQueue := rest, active := st.active ++ [r] }, [Obs.dispatched r.tag])
    else (st, [])

/-- The cache-miss tail of `loadTopicImages`: push a new queued request and
trigger `_processQueue`. -/
def enqueueRequest (st : LoaderState) (topicId : Nat) : LoaderState × List Obs :=
  let tag := st.nextTag
  let st1 := { st with
    requestQueue := st.requestQueue ++ [⟨topicId, tag⟩]
    nextTag := tag + 1 }
  let (st2, obs) := processQueue st1
  (st2, Obs.enqueued tag :: obs)

/-- The public `loadTopicImages(topicId)` entry point: sweep the expired
cache, return the cached images on a valid hit, delete a present-but-stale
entry, and otherwise enqueue the request and trigger the dispatch step. -/
def loadTopicImages (st : LoaderState) (topicId now : Nat) : LoaderState × List Obs :=
  let st1 := { st with imageCache := cleanExpiredCache st.imageCache now }
  match st1.imageCache.lookup topicId with
  | some e =>
    if isCacheValid e now then
      (st1, [Obs.cacheHit topicId e.images])
    else
      enqueueRequest { st1 with imageCache := cacheDelete st1.imageCache topicId } topicId
  | none => enqueueRequest st1 topicId

/-- Completion of the in-flight fetch-and-settle sequence of the request
tagged `tag`, with environment outcome `outcome` at time `now`: run
`_loadTopicImagesInternal`, resolve the promise with its result (the
`reject` branch of `_processQueue`'s `catch` is unreachable because the
internal handler absorbs every error), then the `finally` block decrements
`activeRequests` and re-triggers `_processQueue`. -/
def completeStep (origin : String) (st : LoaderState) (tag : Nat)
    (outcome : FetchResult) (now : Nat) : LoaderState × List Obs :=
  match st.active.find? (fun r => r.tag = tag) with
  | none => (st, [])
  | some r =>
    let (st1, images) := loadTopicImagesInternal origin st r.topicId outcome now
    let st2 := { st1 with active := st1.active.filter (fun q => q.tag ≠ tag) }
    let (st3, obs) := processQueue st2
    (st3, Obs.settled tag (Settlement.resolved images) :: obs)

/-- The events of the loader transition system: a caller invoking
`loadTopicImages` at time `now`, or an in-flight fetch completing with an
environment-chosen outcome. -/
inductive Event where
  | request (topicId : Nat) (now : Nat)
  | complete (tag : Nat) (outcome : FetchResult) (now : Nat)
deriving DecidableEq, Repr

/-- One transition of the loader. -/
def step (origin : String) (st : LoaderState) : Event → LoaderState × List Obs
  | .request topicId now => loadTopicImages st topicId now
  | .complete tag outcome now => completeStep origin st tag outcome now

/-- Run a sequence of events, concatenating the observations. -/
def run (origin : String) (st : LoaderState) : List Event → LoaderState × List Obs
  | [] => (st, [])
  | e :: rest =>
    let p := step origin st e
    let q := run origin p.1 rest
    (q.1, p.2 ++ q.2)

/-- States reachable from a freshly constructed service. -/
inductive Reachable (origin : String) : LoaderState → Prop where
  | init : Reachable origin initState
  | next (st : LoaderState) (e : Event) :
      Reachable origin st → Reachable origin (step origin st e).1

/-- Tags recorded as enqueued, in order. -/
def enqueuedTags (obs : List Obs) : List Nat :=
  obs.filterMap fun o =>
    match o with
    | .enqueued t => some t
    | _ => none

/-- Tags recorded as dispatched, in order. -/
def dispatchedTags (obs : List Obs) : List Nat :=
  obs.filterMap fun o =>
    match o with
    | .dispatched t => some t
    | _ => none

/-- Whether an observation invokes a queued request's `reject` callback. -/
def isRejection : Obs → Bool
  | .settled _ (.rejected _) => true
  | _ => false

/-- The rejection observations of a trace. -/
def rejections (obs : List Obs) : List Obs :=
  obs.filter isRejection

theorem coverScan_append_of_first (origin : String) (pre post : List Img) (i : Img)
    (url : String) (hpre : ∀ j ∈ pre, coverMatch origin j = none)
    (hmatch : coverMatch origin i = some url) :
    coverScan origin (pre ++ i :: post) = some url := by
  induction pre with
  | nil =>
    rw [List.nil_append, coverScan_cons, hmatch]
  | cons j rest ih =>
    rw [List.cons_append, coverScan_cons, hpre j (List.mem_cons_self j rest)]
    exact ih fun k hk => hpre k (List.mem_cons_of_mem j hk)

/-- Claim C2, counterexample: in the markup consisting of an excluded image
followed by three eligible ones there are exactly 3 eligible images, no
cover match, and `maxResults = 3`, yet `extract` returns only the first two
eligible URLs — an image failing the exclusion filter does consume the
limit, contrary to the claim. -/
theorem claim_C2_counterexample :
    List.filterMap (eligibleUrl "o")
        [⟨none, some "/images/x.png", none⟩, ⟨none, some "/a.png", none⟩,
          ⟨none, some "/b.png", none⟩, ⟨none, some "/c.png", none⟩]
      = ["o/a.png", "o/b.png", "o/c.png"] ∧
    coverScan "o"
        [⟨none, some "/images/x.png", none⟩, ⟨none, some "/a.png", none⟩,
          ⟨none, some "/b.png", none⟩, ⟨none, some "/c.png", none⟩]
      = none ∧
    extractImagesFromHtml "o"
        [⟨none, some "/images/x.png", none⟩, ⟨none, some "/a.png", none⟩,
          ⟨none, some "/b.png", none⟩, ⟨none, some "/c.png", none⟩] 3
      = ["o/a.png", "o/b.png"] ∧
    extractImagesFromHtml "o"
        [⟨none, some "/images/x.png", none⟩, ⟨none, some "/a.png", none⟩,
          ⟨none, some "/b.png", none⟩, ⟨none, some "/c.png", none⟩] 3
      ≠ ["o/a.png", "o/b.png", "o/c.png"] := by
  refine ⟨rfl, rfl, rfl, ?_⟩
  decide

/-- Claim C2, amended: with no cover-image match, `extract` examines only
the first `maxResults` image elements and returns the eligible URLs among
them, in document order; an image whose URL is absent or excluded is
skipped but still consumes the limit (first conjunct, for every markup).
In particular, when every image of the markup is eligible, `extract`
returns the first `min N maxResults` eligible URLs in document order
(second conjunct). -/
theorem claim_C2 (origin : String) (imgs : List Img) (m : Nat)
    (hcover : coverScan origin imgs = none) :
    extractImagesFromHtml origin imgs m
        = (imgs.take m).filterMap (eligibleUrl origin) ∧
    ((∀ i ∈ imgs, (eligibleUrl origin i).isSome) →
      extractImagesFromHtml origin imgs m
        = (imgs.filterMap (eligibleUrl origin)).take m) := by
  have hbase : extractImagesFromHtml origin imgs m
      = (imgs.take m).filterMap (eligibleUrl origin) := by
    unfold extractImagesFromHtml
    rw [hcover, collectImages_eq_take_filterMap]
  exact ⟨hbase, fun helig => hbase.trans (take_filterMap_of_total _ _ _ helig)⟩

/-- Witness for C2: the general equation at a markup containing an
excluded image (which consumes the limit), and the all-eligible
specialization at a markup of four eligible images, both with
`maxResults = 3`. -/
theorem claim_C2_witness :
    extractImagesFromHtml "o"
        [⟨none, some "/images/x.png", none⟩, ⟨none, some "/a.png", none⟩,
          ⟨none, some "/b.png", none⟩, ⟨none, some "/c.png", none⟩] 3
        = (([⟨none, some "/images/x.png", none⟩, ⟨none, some "/a.png", none⟩,
            ⟨none, some "/b.png", none⟩, ⟨none, some "/c.png", none⟩] : List Img).take 3).filterMap
              (eligibleUrl "o") ∧
    extractImagesFromHtml "o"
        [⟨none, some "/a.png", none⟩, ⟨none, some "/b.png", none⟩,
          ⟨none, some "/c.png", none⟩, ⟨none, some "/d.png", none⟩] 3
        = (([⟨none, some "/a.png", none⟩, ⟨none, some "/b.png", none⟩,
            ⟨none, some "/c.png", none⟩, ⟨none, some "/d.png", none⟩] : List Img).filterMap
              (eligibleUrl "o")).take 3 :=
  ⟨(claim_C2 "o"
      [⟨none, some "/images/x.png", none⟩, ⟨none, some "/a.png", none⟩,
        ⟨none, some "/b.png", none⟩, ⟨none, some "/c.png", none⟩] 3 (by decide)).1,
    (claim_C2 "o"
      [⟨none, some "/a.png", none⟩, ⟨none, some "/b.png", none⟩,
        ⟨none, some "/c.png", none⟩, ⟨none, some "/d.png", none⟩] 3 (by decide)).2 (by decide)⟩

/-- Claim C3, counterexample: on the claim's own scenario markup
`<img alt="cover image" src="/a.png"><img src="/b.png">` the code returns
both URLs, not the single-element `["o/a.png"]` — the cover marker in the
code is the string `"封面图"`, which the alt text `"cover image"` does not
contain, so the cover rule does not fire. -/
theorem claim_C3_counterexample :
    extractImagesFromHtml "o"
        [⟨some "cover image", some "/a.png", none⟩, ⟨none, some "/b.png", none⟩] 3
      = ["o/a.png", "o/b.png"] ∧
    extractImagesFromHtml "o"
        [⟨some "cover image", some "/a.png", none⟩, ⟨none, some "/b.png", none⟩] 3
      ≠ ["o/a.png"] := by
  refine ⟨rfl, ?_⟩
  decide

/-- Claim C3, amended: the cover marker is `"封面图"`, not the literal
`"cover image"`.  For every markup whose first marker-matching image with an
eligible URL is `i` (resolving to `url`), `extract` returns exactly `[url]`
regardless of `maxResults`, short-circuiting the general rule. -/
theorem claim_C3 (origin : String) (pre post : List Img) (i : Img) (url : String)
    (hpre : ∀ j ∈ pre, coverMatch origin j = none)
    (hmatch : coverMatch origin i = some url) (m : Nat) :
    extractImagesFromHtml origin (pre ++ i :: post) m = [url] := by
  unfold extractImagesFromHtml
  rw [coverScan_append_of_first origin pre post i url hpre hmatch]

/-- Witness for C3 on the scenario markup with the actual marker
`"封面图"` and a large `maxResults`. -/
theorem claim_C3_witness :
    extractImagesFromHtml "o"
        [⟨some "封面图", some "/a.png", none⟩, ⟨none, some "/b.png", none⟩] 5
      = ["o/a.png"] :=
  claim_C3 "o" [] [⟨none, some "/b.png", none⟩]
    ⟨some "封面图", some "/a.png", none⟩ "o/a.png"
    (by simp) (by decide) 5

theorem internalTry_frame (origin : String) (st : LoaderState) (id : Nat)
    (oc : FetchResult) (now : Nat) :
    (internalTry origin st id oc now).1.active = st.active ∧
    (internalTry origin st id oc now).1.requestQueue = st.requestQueue ∧
    (internalTry origin st id oc now).1.nextTag = st.nextTag := by
  cases oc with
  | thrown => exact ⟨rfl, rfl, rfl⟩
  | response resp =>
    by_cases h : resp.ok = true
    · simp [internalTry, h]
    · by_cases h2 : resp.status = 429 <;>
        simp [internalTry, h, h2]

theorem internalTry_throttle (origin : String) (st : LoaderState) (id : Nat)
    (oc : FetchResult) (now : Nat) :
    ((internalTry origin st id oc now).1.requestDelay = st.requestDelay ∧
      (internalTry origin st id oc now).1.maxConcurrent = st.maxConcurrent) ∨
    ((internalTry origin st id oc now).1.requestDelay = min (st.requestDelay * 2) 5000 ∧
      (internalTry origin st id oc now).1.maxConcurrent = 1) := by
  cases oc with
  | thrown => exact Or.inl ⟨rfl, rfl⟩
  | response resp =>
    by_cases h : resp.ok = true
    · exact Or.inl (by simp [internalTry, h])
    · by_cases h2 : resp.status = 429
      · exact Or.inr (by simp [internalTry, h, h2])
      · exact Or.inl (by simp [internalTry, h, h2])

theorem loadTopicImagesInternal_fst (origin : String) (st : LoaderState) (id : Nat)
    (oc : FetchResult) (now : Nat) :
    (loadTopicImagesInternal origin st id oc now).1 = (internalTry origin st id oc now).1 := by
  unfold loadTopicImagesInternal
  rcases h : internalTry origin st id oc now with ⟨st', r⟩
  cases r <;> rfl

theorem processQueue_obs (st : LoaderState) :
    (processQueue st).2 = [] ∨ ∃ t, (processQueue st).2 = [Obs.dispatched t] := by
  rcases st with ⟨q, a, mc, d, c, nt⟩
  cases q with
  | nil => exact Or.inl rfl
  | cons r rest =>
    simp only [processQueue]
    split
    · exact Or.inr ⟨r.tag, rfl⟩
    · exact Or.inl rfl

theorem processQueue_frame (st : LoaderState) :
    (processQueue st).1.maxConcurrent = st.maxConcurrent ∧
    (processQueue st).1.requestDelay = st.requestDelay ∧
    (processQueue st).1.imageCache = st.imageCache ∧
    (processQueue st).1.nextTag = st.nextTag := by
  rcases st with ⟨q, a, mc, d, c, nt⟩
  cases q with
  | nil => exact ⟨rfl, rfl, rfl, rfl⟩
  | cons r rest =>
    simp only [processQueue]
    split <;> exact ⟨rfl, rfl, rfl, rfl⟩

theorem processQueue_inv (st : LoaderState)
    (h1 : st.maxConcurrent = 1) (h2 : st.active.length ≤ 1) :
    (processQueue st).1.maxConcurrent = 1 ∧ (processQueue st).1.active.length ≤ 1 := by
  rcases st with ⟨q, a, mc, d, c, nt⟩
  cases q with
  | nil => exact ⟨h1, h2⟩
  | cons r rest =>
    simp only [processQueue]
    split
    · rename_i hlt
      dsimp only at hlt h1 h2 ⊢
      refine ⟨h1, ?_⟩
      simp only [List.length_append, List.length_cons, List.length_nil]
      omega
    · exact ⟨h1, h2⟩

theorem processQueue_tags (st : LoaderState) :
    enqueuedTags (processQueue st).2 = [] ∧
    dispatchedTags (processQueue st).2 ++ (processQueue st).1.requestQueue.map QueuedReq.tag
      = st.requestQueue.map QueuedReq.tag := by
  rcases st with ⟨q, a, mc, d, c, nt⟩
  cases q with
  | nil => exact ⟨rfl, rfl⟩
  | cons r rest =>
    simp only [processQueue]
    split
    · exact ⟨rfl, rfl⟩
    · exact ⟨rfl, rfl⟩

theorem enqueueRequest_obs (st : LoaderState) (id : Nat) :
    (enqueueRequest st id).2 = Obs.enqueued st.nextTag ::
      (processQueue { st with
        requestQueue := st.requestQueue ++ [⟨id, st.nextTag⟩]
        nextTag := st.nextTag + 1 }).2 := rfl

theorem enqueueRequest_fst (st : LoaderState) (id : Nat) :
    (enqueueRequest st id).1 = (processQueue { st with
      requestQueue := st.requestQueue ++ [⟨id, st.nextTag⟩]
      nextTag := st.nextTag + 1 }).1 := rfl

theorem loadTopicImages_eq (st : LoaderState) (topicId now : Nat) :
    loadTopicImages st topicId now =
      match (cleanExpiredCache st.imageCache now).lookup topicId with
      | some e =>
        if isCacheValid e now then
          ({ st with imageCache := cleanExpiredCache st.imageCache now },
            [Obs.cacheHit topicId e.images])
        else
          enqueueRequest
            { st with imageCache :=
                cacheDelete (cleanExpiredCache st.imageCache now) topicId } topicId
      | none =>
        enqueueRequest { st with imageCache := cleanExpiredCache st.imageCache now } topicId :=
  rfl

theorem enqueuedTags_cons (o : Obs) (l : List Obs) :
    enqueuedTags (o :: l) =
      (match o with | .enqueued t => [t] | _ => []) ++ enqueuedTags l := by
  cases o <;> rfl

theorem dispatchedTags_cons (o : Obs) (l : List Obs) :
    dispatchedTags (o :: l) =
      (match o with | .dispatched t => [t] | _ => []) ++ dispatchedTags l := by
  cases o <;> rfl

theorem rejections_processQueue (st : LoaderState) :
    rejections (processQueue st).2 = [] := by
  rcases processQueue_obs st with h | ⟨t, h⟩ <;> rw [h] <;> rfl

theorem rejections_enqueueRequest (st : LoaderState) (id : Nat) :
    rejections (enqueueRequest st id).2 = [] := by
  rw [enqueueRequest_obs]
  show rejections (processQueue _).2 = []
  exact rejections_processQueue _

theorem rejections_loadTopicImages (st : LoaderState) (topicId now : Nat) :
    rejections (loadTopicImages st topicId now).2 = [] := by
  rw [loadTopicImages_eq]
  cases h : (cleanExpiredCache st.imageCache now).lookup topicId with
  | some e =>
    by_cases hv : isCacheValid e now = true
    · simp only [hv, if_true]
      rfl
    · simp only [Bool.not_eq_true] at hv
      simp only [hv, Bool.false_eq_true, if_false]
      exact rejections_enqueueRequest _ _
  | none => exact rejections_enqueueRequest _ _

theorem rejections_completeStep (origin : String) (st : LoaderState) (tag : Nat)
    (oc : FetchResult) (now : Nat) :
    rejections (completeStep origin st tag oc now).2 = [] := by
  unfold completeStep
  cases h : st.active.find? (fun r => r.tag = tag) with
  | none => rfl
  | some r =>
    show rejections (Obs.settled tag (Settlement.resolved _) :: (processQueue _).2) = []
    show rejections (processQueue _).2 = []
    exact rejections_processQueue _

theorem rejections_step (origin : String) (st : LoaderState) (e : Event) :
    rejections (step origin st e).2 = [] := by
  cases e with
  | request id now => exact rejections_loadTopicImages st id now
  | complete tag oc now => exact rejections_completeStep origin st tag oc now

theorem rejections_append (a b : List Obs) :
    rejections (a ++ b) = rejections a ++ rejections b :=
  List.filter_append a b

theorem rejections_run (origin : String) (st : LoaderState) (evts : List Event) :
    rejections (run origin st evts).2 = [] := by
  induction evts generalizing st with
  | nil => rfl
  | cons e rest ih =>
    show rejections ((step origin st e).2 ++ (run origin (step origin st e).1 rest).2) = []
    rw [rejections_append, rejections_step, ih]
    rfl

theorem enqueueRequest_throttle (st : LoaderState) (id : Nat) :
    (enqueueRequest st id).1.maxConcurrent = st.maxConcurrent ∧
    (enqueueRequest st id).1.requestDelay = st.requestDelay ∧
    (enqueueRequest st id).1.imageCache = st.imageCache := by
  rw [enqueueRequest_fst]
  obtain ⟨h1, h2, h3, _⟩ := processQueue_frame
    { st with requestQueue := st.requestQueue ++ [⟨id, st.nextTag⟩], nextTag := st.nextTag + 1 }
  exact ⟨h1, h2, h3⟩

theorem loadTopicImages_throttle (st : LoaderState) (topicId now : Nat) :
    (loadTopicImages st topicId now).1.maxConcurrent = st.maxConcurrent ∧
    (loadTopicImages st topicId now).1.requestDelay = st.requestDelay := by
  rw [loadTopicImages_eq]
  cases h : (cleanExpiredCache st.imageCache now).lookup topicId with
  | some e =>
    by_cases hv : isCacheValid e now = true
    · simp only [hv, if_true]
      trivial
    · simp only [Bool.not_eq_true] at hv
      simp only [hv, Bool.false_eq_true, if_false]
      obtain ⟨h1, h2, _⟩ := enqueueRequest_throttle
        { st with imageCache := cacheDelete (cleanExpiredCache st.imageCache now) topicId } topicId
      exact ⟨h1, h2⟩
  | none =>
    obtain ⟨h1, h2, _⟩ := enqueueRequest_throttle
      { st with imageCache := cleanExpiredCache st.imageCache now } topicId
    exact ⟨h1, h2⟩

theorem completeStep_throttle (origin : String) (st : LoaderState) (tag : Nat)
    (oc : FetchResult) (now : Nat) :
    ((completeStep origin st tag oc now).1.requestDelay = st.requestDelay ∧
      (completeStep origin st tag oc now).1.maxConcurrent = st.maxConcurrent) ∨
    ((completeStep origin st tag oc now).1.requestDelay = min (st.requestDelay * 2) 5000 ∧
      (completeStep origin st tag oc now).1.maxConcurrent = 1) := by
  unfold completeStep
  cases h : st.active.find? (fun r => r.tag = tag) with
  | none => exact Or.inl ⟨rfl, rfl⟩
  | some r =>
    have hfst := loadTopicImagesInternal_fst origin st r.topicId oc now
    obtain ⟨hpd, hpm, _, _⟩ := processQueue_frame
      { (loadTopicImagesInternal origin st r.topicId oc now).1 with
          active := (loadTopicImagesInternal origin st r.topicId oc now).1.active.filter
            (fun q => q.tag ≠ tag) }
    rcases internalTry_throttle origin st r.topicId oc now with ⟨hd, hm⟩ | ⟨hd, hm⟩
    · exact Or.inl ⟨by rw [hpm]; rw [hfst]; exact hd, by rw [hpd]; rw [hfst]; exact hm⟩
    · exact Or.inr ⟨by rw [hpm]; rw [hfst]; exact hd, by rw [hpd]; rw [hfst]; exact hm⟩

theorem enqueueRequest_inv (st : LoaderState) (id : Nat)
    (h1 : st.maxConcurrent = 1) (h2 : st.active.length ≤ 1) :
    (enqueueRequest st id).1.maxConcurrent = 1 ∧
    (enqueueRequest st id).1.active.length ≤ 1 := by
  rw [enqueueRequest_fst]
  exact processQueue_inv _ h1 h2

theorem loadTopicImages_inv (st : LoaderState) (topicId now : Nat)
    (h1 : st.maxConcurrent = 1) (h2 : st.active.length ≤ 1) :
    (loadTopicImages st topicId now).1.maxConcurrent = 1 ∧
    (loadTopicImages st topicId now).1.active.length ≤ 1 := by
  rw [loadTopicImages_eq]
  cases h : (cleanExpiredCache st.imageCache now).lookup topicId with
  | some e =>
    by_cases hv : isCacheValid e now = true
    · simp only [hv, if_true]
      exact ⟨h1, h2⟩
    · simp only [Bool.not_eq_true] at hv
      simp only [hv, Bool.false_eq_true, if_false]
      exact enqueueRequest_inv _ _ h1 h2
  | none => exact enqueueRequest_inv _ _ h1 h2

theorem completeStep_inv (origin : String) (st : LoaderState) (tag : Nat)
    (oc : FetchResult) (now : Nat)
    (h1 : st.maxConcurrent = 1) (h2 : st.active.length ≤ 1) :
    (completeStep origin st tag oc now).1.maxConcurrent = 1 ∧
    (completeStep origin st tag oc now).1.active.length ≤ 1 := by
  unfold completeStep
  cases h : st.active.find? (fun r => r.tag = tag) with
  | none => exact ⟨h1, h2⟩
  | some r =>
    have hfst := loadTopicImagesInternal_fst origin st r.topicId oc now
    have hact : (loadTopicImagesInternal origin st r.topicId oc now).1.active = st.active := by
      rw [hfst]; exact (internalTry_frame origin st r.topicId oc now).1
    have hmc : (loadTopicImagesInternal origin st r.topicId oc now).1.maxConcurrent = 1 := by
      rw [hfst]
      rcases internalTry_throttle origin st r.topicId oc now with ⟨_, hm⟩ | ⟨_, hm⟩
      · rw [hm]; exact h1
      · exact hm
    apply processQueue_inv
    · exact hmc
    · show ((loadTopicImagesInternal origin st r.topicId oc now).1.active.filter
        (fun q => q.tag ≠ tag)).length ≤ 1
      calc ((loadTopicImagesInternal origin st r.topicId oc now).1.active.filter
            (fun q => q.tag ≠ tag)).length
          ≤ (loadTopicImagesInternal origin st r.topicId oc now).1.active.length :=
            List.length_filter_le _ _
        _ = st.active.length := by rw [hact]
        _ ≤ 1 := h2

theorem step_inv (origin : String) (st : LoaderState) (e : Event)
    (h1 : st.maxConcurrent = 1) (h2 : st.active.length ≤ 1) :
    (step origin st e).1.maxConcurrent = 1 ∧
    (step origin st e).1.active.length ≤ 1 := by
  cases e with
  | request id now => exact loadTopicImages_inv st id now h1 h2
  | complete tag oc now => exact completeStep_inv origin st tag oc now h1 h2

theorem reachable_inv (origin : String) (st : LoaderState) (h : Reachable origin st) :
    st.maxConcurrent = 1 ∧ st.active.length ≤ 1 := by
  induction h with
  | init => exact ⟨rfl, Nat.zero_le 1⟩
  | next st' e _ ih => exact step_inv origin st' e ih.1 ih.2

theorem enqueuedTags_enqueued_cons (t : Nat) (l : List Obs) :
    enqueuedTags (Obs.enqueued t :: l) = t :: enqueuedTags l := rfl

theorem dispatchedTags_enqueued_cons (t : Nat) (l : List Obs) :
    dispatchedTags (Obs.enqueued t :: l) = dispatchedTags l := rfl

theorem enqueuedTags_settled_cons (t : Nat) (s : Settlement) (l : List Obs) :
    enqueuedTags (Obs.settled t s :: l) = enqueuedTags l := rfl

theorem dispatchedTags_settled_cons (t : Nat) (s : Settlement) (l : List Obs) :
    dispatchedTags (Obs.settled t s :: l) = dispatchedTags l := rfl

theorem enqueue_dispatch_tags (st1 : LoaderState) (Q : List QueuedReq) (idv t : Nat)
    (hq1 : st1.requestQueue = Q ++ [⟨idv, t⟩]) :
    Q.map QueuedReq.tag ++ enqueuedTags (Obs.enqueued t :: (processQueue st1).2)
      = dispatchedTags (Obs.enqueued t :: (processQueue st1).2) ++
        (processQueue st1).1.requestQueue.map QueuedReq.tag := by
  obtain ⟨he, hd⟩ := processQueue_tags st1
  rw [enqueuedTags_enqueued_cons, he, dispatchedTags_enqueued_cons, hd, hq1]
  simp

theorem settle_dispatch_tags (st2 : LoaderState) (Q : List QueuedReq) (t : Nat)
    (s : Settlement) (hq : st2.requestQueue = Q) :
    Q.map QueuedReq.tag ++ enqueuedTags (Obs.settled t s :: (processQueue st2).2)
      = dispatchedTags (Obs.settled t s :: (processQueue st2).2) ++
        (processQueue st2).1.requestQueue.map QueuedReq.tag := by
  obtain ⟨he, hd⟩ := processQueue_tags st2
  rw [enqueuedTags_settled_cons, he, dispatchedTags_settled_cons, hd, hq]
  simp

theorem enqueueRequest_tags (st : LoaderState) (id : Nat) :
    st.requestQueue.map QueuedReq.tag ++ enqueuedTags (enqueueRequest st id).2
      = dispatchedTags (enqueueRequest st id).2 ++
        (enqueueRequest st id).1.requestQueue.map QueuedReq.tag :=
  enqueue_dispatch_tags
    { st with requestQueue := st.requestQueue ++ [⟨id, st.nextTag⟩], nextTag := st.nextTag + 1 }
    st.requestQueue id st.nextTag rfl

theorem loadTopicImages_tags (st : LoaderState) (topicId now : Nat) :
    st.requestQueue.map QueuedReq.tag ++ enqueuedTags (loadTopicImages st topicId now).2
      = dispatchedTags (loadTopicImages st topicId now).2 ++
        (loadTopicImages st topicId now).1.requestQueue.map QueuedReq.tag := by
  rw [loadTopicImages_eq]
  cases h : (cleanExpiredCache st.imageCache now).lookup topicId with
  | some e =>
    by_cases hv : isCacheValid e now = true
    · simp only [hv, if_true]
      show st.requestQueue.map QueuedReq.tag ++ enqueuedTags [Obs.cacheHit topicId e.images]
        = dispatchedTags [Obs.cacheHit topicId e.images] ++ st.requestQueue.map QueuedReq.tag
      simp [enqueuedTags, dispatchedTags]
    · simp only [Bool.not_eq_true] at hv
      simp only [hv, Bool.false_eq_true, if_false]
      exact enqueueRequest_tags
        { st with imageCache := cacheDelete (cleanExpiredCache st.imageCache now) topicId } topicId
  | none =>
    exact enqueueRequest_tags
      { st with imageCache := cleanExpiredCache st.imageCache now } topicId

theorem completeStep_tags (origin : String) (st : LoaderState) (tag : Nat)
    (oc : FetchResult) (now : Nat) :
    st.requestQueue.map QueuedReq.tag ++ enqueuedTags (completeStep origin st tag oc now).2
      = dispatchedTags (completeStep origin st tag oc now).2 ++
        (completeStep origin st tag oc now).1.requestQueue.map QueuedReq.tag := by
  unfold completeStep
  cases h : st.active.find? (fun r => r.tag = tag) with
  | none => simp [enqueuedTags, dispatchedTags]
  | some r =>
    have hq : (loadTopicImagesInternal origin st r.topicId oc now).1.requestQueue
        = st.requestQueue := by
      rw [loadTopicImagesInternal_fst]
      exact (internalTry_frame origin st r.topicId oc now).2.1
    exact settle_dispatch_tags
      { (loadTopicImagesInternal origin st r.topicId oc now).1 with
          active := (loadTopicImagesInternal origin st r.topicId oc now).1.active.filter
            (fun q => q.tag ≠ tag) }
      st.requestQueue tag
      (Settlement.resolved (loadTopicImagesInternal origin st r.topicId oc now).2) hq

theorem step_tags (origin : String) (st : LoaderState) (e : Event) :
    st.requestQueue.map QueuedReq.tag ++ enqueuedTags (step origin st e).2
      = dispatchedTags (step origin st e).2 ++
        (step origin st e).1.requestQueue.map QueuedReq.tag := by
  cases e with
  | request id now => exact loadTopicImages_tags st id now
  | complete tag oc now => exact completeStep_tags origin st tag oc now

theorem enqueuedTags_append (a b : List Obs) :
    enqueuedTags (a ++ b) = enqueuedTags a ++ enqueuedTags b :=
  List.filterMap_append a b _

theorem dispatchedTags_append (a b : List Obs) :
    dispatchedTags (a ++ b) = dispatchedTags a ++ dispatchedTags b :=
  List.filterMap_append a b _

theorem run_tags (origin : String) (evts : List Event) (st : LoaderState) :
    st.requestQueue.map QueuedReq.tag ++ enqueuedTags (run origin st evts).2
      = dispatchedTags (run origin st evts).2 ++
        (run origin st evts).1.requestQueue.map QueuedReq.tag := by
  induction evts generalizing st with
  | nil => simp [run, enqueuedTags, dispatchedTags]
  | cons e rest ih =>
    show st.requestQueue.map QueuedReq.tag ++
        enqueuedTags ((step origin st e).2 ++ (run origin (step origin st e).1 rest).2)
      = dispatchedTags ((step origin st e).2 ++ (run origin (step origin st e).1 rest).2) ++
        (run origin (step origin st e).1 rest).1.requestQueue.map QueuedReq.tag
    rw [enqueuedTags_append, dispatchedTags_append]
    rw [← List.append_assoc, step_tags, List.append_assoc, ih, List.append_assoc]

theorem step_throttle (origin : String) (st : LoaderState) (e : Event)
    (hdelay : st.requestDelay ≤ 5000) (hmc : 1 ≤ st.maxConcurrent) :
    st.requestDelay ≤ (step origin st e).1.requestDelay ∧
    (step origin st e).1.requestDelay ≤ 5000 ∧
    (step origin st e).1.maxConcurrent ≤ st.maxConcurrent ∧
    1 ≤ (step origin st e).1.maxConcurrent ∧
    (st.maxConcurrent = 1 → (step origin st e).1.maxConcurrent = 1) := by
  cases e with
  | request id now =>
    obtain ⟨hm, hd⟩ := loadTopicImages_throttle st id now
    simp only [step]
    rw [hm, hd]
    exact ⟨le_refl _, hdelay, le_refl _, hmc, fun h => h⟩
  | complete tag oc now =>
    simp only [step]
    rcases completeStep_throttle origin st tag oc now with ⟨h1, h2⟩ | ⟨h1, h2⟩
    · rw [h1, h2]
      exact ⟨le_refl _, hdelay, le_refl _, hmc, fun h => h⟩
    · rw [h1, h2]
      refine ⟨le_min (by omega) hdelay, min_le_right _ _, hmc, le_refl 1, fun _ => rfl⟩

theorem run_throttle (origin : String) (evts : List Event) (st : LoaderState)
    (hdelay : st.requestDelay ≤ 5000) (hmc : 1 ≤ st.maxConcurrent) :
    st.requestDelay ≤ (run origin st evts).1.requestDelay ∧
    (run origin st evts).1.requestDelay ≤ 5000 ∧
    1 ≤ (run origin st evts).1.maxConcurrent ∧
    (st.maxConcurrent = 1 → (run origin st evts).1.maxConcurrent = 1) := by
  induction evts generalizing st with
  | nil => exact ⟨le_refl _, hdelay, hmc, fun h => h⟩
  | cons e rest ih =>
    obtain ⟨s1, s2, s3, s4, s5⟩ := step_throttle origin st e hdelay hmc
    obtain ⟨r1, r2, r3, r4⟩ := ih (step origin st e).1 s2 s4
    refine ⟨le_trans s1 r1, r2, r3, fun h => r4 ?_⟩
    have h4 := s5 h
    exact h4

theorem mem_cleanExpired (c : List (Nat × CacheEntry)) (now : Nat) (p : Nat × CacheEntry)
    (h : p ∈ cleanExpiredCache c now) : now - p.2.timestamp < cacheExpiry := by
  have := List.mem_filter.mp h
  exact of_decide_eq_true this.2

theorem mem_cacheDelete (c : List (Nat × CacheEntry)) (id : Nat) (p : Nat × CacheEntry)
    (h : p ∈ cacheDelete c id) : p ∈ c :=
  (List.mem_filter.mp h).1

theorem lookup_cacheSet (c : List (Nat × CacheEntry)) (id : Nat) (e : CacheEntry) :
    (cacheSet c id e).lookup id = some e := by
  induction c with
  | nil => simp [cacheSet, List.lookup]
  | cons p rest ih =>
    rcases p with ⟨k, v⟩
    by_cases h : k = id
    · simp [cacheSet, h, List.lookup]
    · have hbeq : (id == k) = false := by
        simp [Ne.symm h]
      simp [cacheSet, h, List.lookup, hbeq, ih]

theorem cons_obs_cases (o : Obs) (st1 : LoaderState) :
    o :: (processQueue st1).2 = [o] ∨
    ∃ t, o :: (processQueue st1).2 = [o, Obs.dispatched t] := by
  rcases processQueue_obs st1 with h | ⟨t, h⟩
  · rw [h]
    exact Or.inl rfl
  · rw [h]
    exact Or.inr ⟨t, rfl⟩

theorem enqueueRequest_obs_cases (st : LoaderState) (id : Nat) :
    (enqueueRequest st id).2 = [Obs.enqueued st.nextTag] ∨
    ∃ t, (enqueueRequest st id).2 = [Obs.enqueued st.nextTag, Obs.dispatched t] := by
  rw [enqueueRequest_obs]
  exact cons_obs_cases _ _

/-- Claim C1, counterexample: from a fresh loader, a request whose fetch
completes with a 429 response does not reject the caller's promise — the
trace ends with the promise resolved with the empty sequence, and the trace
contains no rejection at all, contrary to the claimed propagation of
rate-limit and HTTP-status errors. -/
theorem claim_C1_counterexample :
    (run "o" initState [Event.request 7 0,
        Event.complete 0 (FetchResult.response ⟨false, 429, none⟩) 10]).2
      = [Obs.enqueued 0, Obs.dispatched 0, Obs.settled 0 (Settlement.resolved [])] ∧
    rejections (run "o" initState [Event.request 7 0,
        Event.complete 0 (FetchResult.response ⟨false, 429, none⟩) 10]).2 = [] :=
  ⟨rfl, rfl⟩

/-- Claim C1, amended: for a fetch ending in a 429 or any other non-2xx
outcome, the internal try block does construct the corresponding error (a
rate-limit error for 429, an HTTP-status-carrying error otherwise), but the
surrounding catch absorbs it: `_loadTopicImagesInternal` returns the empty
sequence, and the settle step resolves the caller's promise (no rejection
propagates to the caller). -/
theorem claim_C1 (origin : String) (st : LoaderState) (topicId tag : Nat)
    (resp : FetchResponse) (now : Nat) (hok : resp.ok = false) :
    (internalTry origin st topicId (FetchResult.response resp) now).2
      = Except.error (if resp.status = 429 then LoadError.rateLimit
          else LoadError.httpError resp.status) ∧
    (loadTopicImagesInternal origin st topicId (FetchResult.response resp) now).2 = [] ∧
    rejections (completeStep origin st tag (FetchResult.response resp) now).2 = [] := by
  refine ⟨?_, ?_, rejections_completeStep origin st tag _ now⟩
  · by_cases h429 : resp.status = 429 <;> simp [internalTry, hok, h429]
  · by_cases h429 : resp.status = 429 <;>
      simp [loadTopicImagesInternal, internalTry, hok, h429]

/-- Witness for C1 at a concrete 429 response. -/
theorem claim_C1_witness :
    (internalTry "o" initState 7 (FetchResult.response ⟨false, 429, none⟩) 10).2
      = Except.error (if (429 : Nat) = 429 then LoadError.rateLimit
          else LoadError.httpError 429) ∧
    (loadTopicImagesInternal "o" initState 7 (FetchResult.response ⟨false, 429, none⟩) 10).2
      = [] ∧
    rejections (completeStep "o" initState 0 (FetchResult.response ⟨false, 429, none⟩) 10).2
      = [] :=
  claim_C1 "o" initState 7 0 ⟨false, 429, none⟩ 10 rfl

/-- Claim C4: a fetch observing a 429 tightens the shared throttle state —
`requestDelay` becomes `min (requestDelay * 2) 5000` and `maxConcurrent`
becomes 1 — as a side effect of the internal try block, i.e. before the
request is settled; and the throttle state is never loosened afterwards: on
every step and every run, `requestDelay` never decreases (and stays within
the 5000 ceiling) and `maxConcurrent` never increases, so `maxConcurrent = 1`
is permanent. -/
theorem claim_C4 :
    (∀ (origin : String) (st : LoaderState) (topicId : Nat) (resp : FetchResponse) (now : Nat),
        resp.ok = false → resp.status = 429 →
        (internalTry origin st topicId (FetchResult.response resp) now).1.requestDelay
            = min (st.requestDelay * 2) 5000 ∧
        (internalTry origin st topicId (FetchResult.response resp) now).1.maxConcurrent = 1) ∧
    (∀ (origin : String) (st : LoaderState) (e : Event),
        st.requestDelay ≤ 5000 → 1 ≤ st.maxConcurrent →
        st.requestDelay ≤ (step origin st e).1.requestDelay ∧
        (step origin st e).1.requestDelay ≤ 5000 ∧
        (step origin st e).1.maxConcurrent ≤ st.maxConcurrent ∧
        (st.maxConcurrent = 1 → (step origin st e).1.maxConcurrent = 1)) ∧
    (∀ (origin : String) (st : LoaderState) (evts : List Event),
        st.requestDelay ≤ 5000 → 1 ≤ st.maxConcurrent →
        st.requestDelay ≤ (run origin st evts).1.requestDelay ∧
        (st.maxConcurrent = 1 → (run origin st evts).1.maxConcurrent = 1)) := by
  refine ⟨?_, ?_, ?_⟩
  · intro origin st topicId resp now hok h429
    constructor <;> simp [internalTry, hok, h429]
  · intro origin st e hdelay hmc
    obtain ⟨s1, s2, s3, _, s5⟩ := step_throttle origin st e hdelay hmc
    exact ⟨s1, s2, s3, s5⟩
  · intro origin st evts hdelay hmc
    obtain ⟨r1, _, _, r4⟩ := run_throttle origin evts st hdelay hmc
    exact ⟨r1, r4⟩

/-- Witness for C4: a 429 at the fresh state doubles the delay to 600 and
keeps `maxConcurrent` at 1, and the per-step / per-run monotonicity holds
at a concrete event sequence. -/
theorem claim_C4_witness :
    ((internalTry "o" initState 7 (FetchResult.response ⟨false, 429, none⟩) 0).1.requestDelay
        = min (initState.requestDelay * 2) 5000 ∧
      (internalTry "o" initState 7
        (FetchResult.response ⟨false, 429, none⟩) 0).1.maxConcurrent = 1) ∧
    (initState.requestDelay ≤ (step "o" initState (Event.request 7 0)).1.requestDelay ∧
      (step "o" initState (Event.request 7 0)).1.requestDelay ≤ 5000 ∧
      (step "o" initState (Event.request 7 0)).1.maxConcurrent ≤ initState.maxConcurrent ∧
      (initState.maxConcurrent = 1 →
        (step "o" initState (Event.request 7 0)).1.maxConcurrent = 1)) ∧
    (initState.requestDelay ≤ (run "o" initState [Event.request 7 0,
        Event.complete 0 (FetchResult.response ⟨false, 429, none⟩) 10]).1.requestDelay ∧
      (initState.maxConcurrent = 1 → (run "o" initState [Event.request 7 0,
        Event.complete 0 (FetchResult.response ⟨false, 429, none⟩) 10]).1.maxConcurrent = 1)) :=
  ⟨claim_C4.1 "o" initState 7 ⟨false, 429, none⟩ 0 rfl rfl,
    claim_C4.2.1 "o" initState (Event.request 7 0) (by decide) (by decide),
    claim_C4.2.2 "o" initState [Event.request 7 0,
      Event.complete 0 (FetchResult.response ⟨false, 429, none⟩) 10] (by decide) (by decide)⟩

/-- Claim C5: when, at the time of a `request(id)` call, the (swept) cache
holds an entry for `id` whose age is below the TTL, the call returns
exactly the stored images as an immediate cache hit, and no new fetch is
issued: the queue, the in-flight set and the enqueue counter are all
unchanged. -/
theorem claim_C5 (st : LoaderState) (topicId now : Nat) (e : CacheEntry)
    (hl : (cleanExpiredCache st.imageCache now).lookup topicId = some e)
    (hv : isCacheValid e now = true) :
    (loadTopicImages st topicId now).2 = [Obs.cacheHit topicId e.images] ∧
    (loadTopicImages st topicId now).1.requestQueue = st.requestQueue ∧
    (loadTopicImages st topicId now).1.active = st.active ∧
    (loadTopicImages st topicId now).1.nextTag = st.nextTag := by
  rw [loadTopicImages_eq, hl]
  simp only [hv, if_true]
  exact ⟨trivial, trivial, trivial, trivial⟩

/-- The loader state after one successful fetch for topic 7, cached at
time 10. -/
def exampleCachedState : LoaderState :=
  (run "o" initState [Event.request 7 0,
    Event.complete 0 (FetchResult.response ⟨true, 200,
      some [⟨some [⟨none, some "/a.png", none⟩]⟩]⟩) 10]).1

/-- Witness for C5: a second `request(7)` at time 20 (well within the TTL)
returns the images stored by the first call and issues no new fetch. -/
theorem claim_C5_witness :
    (loadTopicImages exampleCachedState 7 20).2 = [Obs.cacheHit 7 ["o/a.png"]] ∧
    (loadTopicImages exampleCachedState 7 20).1.requestQueue
      = exampleCachedState.requestQueue ∧
    (loadTopicImages exampleCachedState 7 20).1.active = exampleCachedState.active ∧
    (loadTopicImages exampleCachedState 7 20).1.nextTag = exampleCachedState.nextTag :=
  claim_C5 exampleCachedState 7 20 ⟨["o/a.png"], 10⟩ rfl rfl

/-- Claim C6: (i) at the start of every `request` call every cache entry of
age ≥ TTL is removed — every entry surviving the call is younger than the
TTL; (ii) a stale entry is never returned — a cache-hit answer can only
carry the images of a valid looked-up entry; (iii) when no entry for the id
survives the sweep (in particular after the TTL has elapsed), the call
enqueues a new fetch; (iv) a successful fetch overwrites the cache entry
for the id with the freshly extracted images and the new timestamp. -/
theorem claim_C6 :
    (∀ (st : LoaderState) (topicId now : Nat) (p : Nat × CacheEntry),
        p ∈ (loadTopicImages st topicId now).1.imageCache →
        now - p.2.timestamp < cacheExpiry) ∧
    (∀ (st : LoaderState) (topicId now : Nat) (imgs : List String) (e : CacheEntry),
        (cleanExpiredCache st.imageCache now).lookup topicId = some e →
        Obs.cacheHit topicId imgs ∈ (loadTopicImages st topicId now).2 →
        isCacheValid e now = true ∧ e.images = imgs) ∧
    (∀ (st : LoaderState) (topicId now : Nat),
        (cleanExpiredCache st.imageCache now).lookup topicId = none →
        Obs.enqueued st.nextTag ∈ (loadTopicImages st topicId now).2) ∧
    (∀ (origin : String) (st : LoaderState) (topicId : Nat) (resp : FetchResponse) (now : Nat),
        resp.ok = true →
        ((internalTry origin st topicId
            (FetchResult.response resp) now).1.imageCache).lookup topicId
          = some ⟨imagesFromPosts origin resp.posts, now⟩) := by
  refine ⟨?_, ?_, ?_, ?_⟩
  · intro st topicId now p hp
    rw [loadTopicImages_eq] at hp
    cases h : (cleanExpiredCache st.imageCache now).lookup topicId with
    | some e =>
      rw [h] at hp
      by_cases hv : isCacheValid e now = true
      · simp only [hv, if_true] at hp
        exact mem_cleanExpired _ _ _ hp
      · simp only [Bool.not_eq_true] at hv
        simp only [hv, Bool.false_eq_true, if_false] at hp
        rw [enqueueRequest_fst] at hp
        obtain ⟨_, _, hc, _⟩ := processQueue_frame _
        rw [hc] at hp
        exact mem_cleanExpired _ _ _ (mem_cacheDelete _ _ _ hp)
    | none =>
      rw [h] at hp
      rw [enqueueRequest_fst] at hp
      obtain ⟨_, _, hc, _⟩ := processQueue_frame _
      rw [hc] at hp
      exact mem_cleanExpired _ _ _ hp
  · intro st topicId now imgs e he hmem
    rw [loadTopicImages_eq, he] at hmem
    by_cases hv : isCacheValid e now = true
    · simp only [hv, if_true] at hmem
      rcases List.mem_singleton.mp hmem with h
      refine ⟨hv, ?_⟩
      injection h with h1 h2
      exact h2.symm
    · simp only [Bool.not_eq_true] at hv
      simp only [hv, Bool.false_eq_true, if_false] at hmem
      exfalso
      rcases enqueueRequest_obs_cases
          { st with imageCache :=
              cacheDelete (cleanExpiredCache st.imageCache now) topicId } topicId with
        hc | ⟨t, hc⟩ <;> rw [hc] at hmem <;> simp at hmem
  · intro st topicId now h
    rw [loadTopicImages_eq, h]
    rcases enqueueRequest_obs_cases
        { st with imageCache := cleanExpiredCache st.imageCache now } topicId with
      hc | ⟨t, hc⟩ <;> rw [hc] <;> simp
  · intro origin st topicId resp now hok
    simp only [internalTry, hok, if_true]
    exact lookup_cacheSet _ _ _

/-- Witness for C6 on a loader whose cache holds one entry for topic 7
stored at time 0, queried at time 5, plus a successful overwrite. -/
theorem claim_C6_witness :
    (5 - (0 : Nat) < cacheExpiry) ∧
    (isCacheValid ⟨["u"], 0⟩ 5 = true ∧
      (CacheEntry.mk ["u"] 0).images = ["u"]) ∧
    (Obs.enqueued initState.nextTag ∈ (loadTopicImages initState 7 5).2) ∧
    (((internalTry "o" initState 7 (FetchResult.response ⟨true, 200, none⟩) 3).1.imageCache).lookup 7
      = some ⟨imagesFromPosts "o" none, 3⟩) :=
  ⟨claim_C6.1 { initState with imageCache := [(7, ⟨["u"], 0⟩)] } 7 5 (7, ⟨["u"], 0⟩) (by decide),
    claim_C6.2.1 { initState with imageCache := [(7, ⟨["u"], 0⟩)] } 7 5 ["u"] ⟨["u"], 0⟩
      rfl (by decide),
    claim_C6.2.2.1 initState 7 5 rfl,
    claim_C6.2.2.2 "o" initState 7 ⟨true, 200, none⟩ 3 rfl⟩

/-- Claim C7: in every reachable state of a loader instance the
`activeRequests` counter never exceeds `maxConcurrent`; hence however many
concurrent `request` calls are made, the number of simultaneously in-flight
fetches is bounded by `maxConcurrent` at every point. -/
theorem claim_C7 (origin : String) (st : LoaderState) (h : Reachable origin st) :
    activeRequests st ≤ st.maxConcurrent := by
  obtain ⟨h1, h2⟩ := reachable_inv origin st h
  rw [h1]
  exact h2

/-- Witness for C7 at the reachable state following one enqueue-and-dispatch. -/
theorem claim_C7_witness :
    activeRequests (step "o" initState (Event.request 7 0)).1
      ≤ (step "o" initState (Event.request 7 0)).1.maxConcurrent :=
  claim_C7 "o" _ (Reachable.next initState (Event.request 7 0) Reachable.init)

/-- Claim C8: requests are dispatched in strict FIFO order of enqueue.
Along any run from a fresh loader, the sequence of enqueued tags equals the
sequence of dispatched tags followed by the tags still waiting in the
queue (in order); in particular the dispatch order is an initial segment of
the enqueue order. -/
theorem claim_C8 (origin : String) (evts : List Event) :
    enqueuedTags (run origin initState evts).2
      = dispatchedTags (run origin initState evts).2 ++
        (run origin initState evts).1.requestQueue.map QueuedReq.tag ∧
    ∃ rest, enqueuedTags (run origin initState evts).2
      = dispatchedTags (run origin initState evts).2 ++ rest := by
  have h := run_tags origin evts initState
  have h0 : initState.requestQueue.map QueuedReq.tag = [] := rfl
  rw [h0, List.nil_append] at h
  exact ⟨h, _, h⟩

/-- Claim C9: the public operation never rejects.  Along any run from any
state no queued request's `reject` callback is ever invoked (every
settlement is a resolution), and whenever the fetch attempt fails — thrown
transport/parse error or any non-`ok` response, 429 included — the request
resolves with the empty sequence. -/
theorem claim_C9 :
    (∀ (origin : String) (st : LoaderState) (evts : List Event),
        rejections (run origin st evts).2 = []) ∧
    (∀ (origin : String) (st : LoaderState) (topicId : Nat) (oc : FetchResult) (now : Nat),
        oc = FetchResult.thrown ∨
          (∃ resp, oc = FetchResult.response resp ∧ resp.ok = false) →
        (loadTopicImagesInternal origin st topicId oc now).2 = []) := by
  constructor
  · exact fun origin st evts => rejections_run origin st evts
  · rintro origin st topicId oc now (rfl | ⟨resp, rfl, hok⟩)
    · rfl
    · by_cases h429 : resp.status = 429 <;>
        simp [loadTopicImagesInternal, internalTry, hok, h429]

/-- Witness for C9: a network-failure completion resolves with the empty
sequence and the run contains no rejection. -/
theorem claim_C9_witness :
    rejections (run "o" initState
      [Event.request 7 0, Event.complete 0 FetchResult.thrown 5]).2 = [] ∧
    (loadTopicImagesInternal "o" initState 7 FetchResult.thrown 5).2 = [] :=
  ⟨claim_C9.1 "o" initState [Event.request 7 0, Event.complete 0 FetchResult.thrown 5],
    claim_C9.2 "o" initState 7 FetchResult.thrown 5 (Or.inl rfl)⟩

/-- Claim C10: the cache is written only by a successful 2xx fetch.
When the fetch-and-settle sequence ends in any failure (thrown error or
non-`ok` response, 429 included) the cache map is left exactly as it was;
on a successful response it becomes the old map with the entry for the id
replaced by the freshly extracted images stamped with the completion
time. -/
theorem claim_C10 (origin : String) (st : LoaderState) (topicId : Nat)
    (oc : FetchResult) (now : Nat) :
    ((oc = FetchResult.thrown ∨ ∃ resp, oc = FetchResult.response resp ∧ resp.ok = false) →
      (loadTopicImagesInternal origin st topicId oc now).1.imageCache = st.imageCache) ∧
    (∀ resp, oc = FetchResult.response resp → resp.ok = true →
      (loadTopicImagesInternal origin st topicId oc now).1.imageCache
        = cacheSet st.imageCache topicId ⟨imagesFromPosts origin resp.posts, now⟩) := by
  constructor
  · rintro (rfl | ⟨resp, rfl, hok⟩)
    · rfl
    · rw [loadTopicImagesInternal_fst]
      by_cases h429 : resp.status = 429 <;> simp [internalTry, hok, h429]
  · rintro resp rfl hok
    rw [loadTopicImagesInternal_fst]
    simp [internalTry, hok]

/-- Witness for C10: a 500 response leaves the cache untouched and a 200
response overwrites the entry. -/
theorem claim_C10_witness :
    (loadTopicImagesInternal "o" initState 7
        (FetchResult.response ⟨false, 500, none⟩) 3).1.imageCache = initState.imageCache ∧
    (loadTopicImagesInternal "o" initState 7
        (FetchResult.response ⟨true, 200, none⟩) 3).1.imageCache
      = cacheSet initState.imageCache 7 ⟨imagesFromPosts "o" none, 3⟩ :=
  ⟨(claim_C10 "o" initState 7 (FetchResult.response ⟨false, 500, none⟩) 3).1
      (Or.inr ⟨⟨false, 500, none⟩, rfl, rfl⟩),
    (claim_C10 "o" initState 7 (FetchResult.response ⟨true, 200, none⟩) 3).2
      ⟨true, 200, none⟩ rfl rfl⟩

end TopicThumbnails
